import Mathlib

/-!
Verification of the geo-spatial visualization engine of `EarthAfricaPage.tsx`:
coordinate projection (`latLonToVec3`), flight-arc construction (`buildArcCurve`
feeding a three.js centripetal Catmull-Rom curve), the route→arc-list builder
inside `RoutesWow`, and the camera-focus controller (`CameraRig` together with
`handleClickCity`).  3D vectors are modelled over `ℝ`; `Math.pow` with a real
exponent is `Real.rpow`; `Math.floor` is `Int.floor`.
-/

namespace EarthAfrica

/-- A 3D vector, modelling `THREE.Vector3`. -/
@[ext]
structure Vec3 where
  x : ℝ
  y : ℝ
  z : ℝ

/-- Model of `THREE.Vector3.add` (componentwise sum). -/
def Vec3.add (u v : Vec3) : Vec3 :=
  ⟨u.x + v.x, u.y + v.y, u.z + v.z⟩

/-- Model of `THREE.Vector3.sub` (componentwise difference). -/
def Vec3.sub (u v : Vec3) : Vec3 :=
  ⟨u.x - v.x, u.y - v.y, u.z - v.z⟩

/-- Model of `THREE.Vector3.multiplyScalar`. -/
def Vec3.smul (a : ℝ) (v : Vec3) : Vec3 :=
  ⟨a * v.x, a * v.y, a * v.z⟩

/-- Model of `THREE.Vector3.length` (Euclidean norm). -/
noncomputable def norm3 (v : Vec3) : ℝ :=
  Real.sqrt (v.x ^ 2 + v.y ^ 2 + v.z ^ 2)

/-- Model of `THREE.Vector3.distanceTo` (Euclidean distance). -/
noncomputable def dist3 (u v : Vec3) : ℝ :=
  Real.sqrt ((u.x - v.x) ^ 2 + (u.y - v.y) ^ 2 + (u.z - v.z) ^ 2)

/-- Model of `THREE.Vector3.distanceToSquared`. -/
def distSq (u v : Vec3) : ℝ :=
  (u.x - v.x) ^ 2 + (u.y - v.y) ^ 2 + (u.z - v.z) ^ 2

/-- Model of `THREE.Vector3.normalize`, which is `divideScalar(length || 1)`:
a zero-length vector is divided by `1` instead of its length. -/
noncomputable def normalize3 (v : Vec3) : Vec3 :=
  Vec3.smul (1 / (if norm3 v = 0 then 1 else norm3 v)) v

/-- Model of `THREE.MathUtils.degToRad`: degrees times `π / 180`. -/
noncomputable def degToRad (d : ℝ) : ℝ :=
  d * (Real.pi / 180)

/-- The projection `latLonToVec3` (source lines 133–140): spherical-to-Cartesian, with
`phi = degToRad (90 - lat)`, `theta = degToRad (lon + 180)`,
`x = -r sin phi cos theta`, `y = r cos phi`, `z = r sin phi sin theta`. -/
noncomputable def latLonToVec3 (lat lon radius : ℝ) : Vec3 :=
  ⟨-radius * Real.sin (degToRad (90 - lat)) * Real.cos (degToRad (lon + 180)),
   radius * Real.cos (degToRad (90 - lat)),
   radius * Real.sin (degToRad (90 - lat)) * Real.sin (degToRad (lon + 180))⟩

lemma norm3_latLonToVec3 (lat lon radius : ℝ) (hr : 0 ≤ radius) :
    norm3 (latLonToVec3 lat lon radius) = radius := by
  have key : (-radius * Real.sin (degToRad (90 - lat)) * Real.cos (degToRad (lon + 180))) ^ 2
      + (radius * Real.cos (degToRad (90 - lat))) ^ 2
      + (radius * Real.sin (degToRad (90 - lat)) * Real.sin (degToRad (lon + 180))) ^ 2
      = radius ^ 2 := by
    linear_combination (radius ^ 2 * Real.sin (degToRad (90 - lat)) ^ 2) *
        Real.sin_sq_add_cos_sq (degToRad (lon + 180)) +
      radius ^ 2 * Real.sin_sq_add_cos_sq (degToRad (90 - lat))
  show Real.sqrt _ = radius
  rw [show (latLonToVec3 lat lon radius).x ^ 2 + (latLonToVec3 lat lon radius).y ^ 2
      + (latLonToVec3 lat lon radius).z ^ 2 = radius ^ 2 from key]
  exact Real.sqrt_sq hr

/-- C8: the projection `latLonToVec3` is deterministic (equal inputs yield equal
outputs) and the Euclidean norm of the returned point equals the radius.  Over
the exact reals the norm equality is exact, which subsumes "within floating
tolerance"; a (nonnegative) radius hypothesis reflects that the radius of a
sphere is a nonnegative length. -/
theorem projection_norm_radius (lat lon radius lat2 lon2 radius2 : ℝ)
    (heq : lat = lat2 ∧ lon = lon2 ∧ radius = radius2) (hr : 0 ≤ radius) :
    latLonToVec3 lat lon radius = latLonToVec3 lat2 lon2 radius2 ∧
    norm3 (latLonToVec3 lat lon radius) = radius := by
  obtain ⟨h1, h2, h3⟩ := heq
  subst h1; subst h2; subst h3
  exact ⟨rfl, norm3_latLonToVec3 lat lon radius hr⟩

/-- C8 witness: the projection property instantiated at latitude 6.1319,
longitude 1.2228 (Lome) and radius 2. -/
theorem projection_norm_radius_witness :
    ((6.1319 : ℝ) = 6.1319 ∧ (1.2228 : ℝ) = 1.2228 ∧ (2 : ℝ) = 2) ∧ (0 : ℝ) ≤ 2 ∧
    (latLonToVec3 6.1319 1.2228 2 = latLonToVec3 6.1319 1.2228 2 ∧
      norm3 (latLonToVec3 6.1319 1.2228 2) = 2) :=
  ⟨⟨rfl, rfl, rfl⟩, by norm_num,
    projection_norm_radius 6.1319 1.2228 2 6.1319 1.2228 2 ⟨rfl, rfl, rfl⟩ (by norm_num)⟩

/-- A waypoint record, modelling an entry of the `CITY` table. -/
structure City where
  lat : ℝ
  lon : ℝ

/-- The static waypoint table `CITY` (source lines 87–108), modelled as the
lookup function `name ↦ CITY[name]` of the TypeScript record. -/
noncomputable def CITY : String → Option City
  | "Lome" => some ⟨6.1319, 1.2228⟩
  | "Libreville" => some ⟨0.4162, 9.4673⟩
  | "Abuja" => some ⟨9.0765, 7.3986⟩
  | "Lagos" => some ⟨6.5244, 3.3792⟩
  | "Abidjan" => some ⟨5.3599, -4.0083⟩
  | "Pretoria" => some ⟨-25.7479, 28.2293⟩
  | "Cotonou" => some ⟨6.3703, 2.3912⟩
  | "Accra" => some ⟨5.6037, -0.187⟩
  | "Paris" => some ⟨48.8566, 2.3522⟩
  | "Lille" => some ⟨50.6292, 3.0573⟩
  | "Nice" => some ⟨43.7102, 7.262⟩
  | "Marseille" => some ⟨43.2965, 5.3698⟩
  | "Istanbul" => some ⟨41.0082, 28.9784⟩
  | "Montreal" => some ⟨45.5017, -73.5673⟩
  | "Stuttgart" => some ⟨48.7758, 9.1829⟩
  | "Bruxelles" => some ⟨50.8503, 4.3517⟩
  | "Rio de Janeiro" => some ⟨-22.9068, -43.1729⟩
  | "Moscow" => some ⟨55.7558, 37.6173⟩
  | "New York" => some ⟨40.7128, -74.006⟩
  | "Dubai" => some ⟨25.2048, 55.2708⟩
  | _ => none

/-- The fixed tour `ROUTE` (source lines 110–131). -/
def ROUTE : List String :=
  ["Lome", "Libreville", "Abuja", "Lagos", "Abidjan", "Pretoria", "Cotonou",
   "Accra", "Paris", "Lille", "Nice", "Marseille", "Istanbul", "Montreal",
   "Stuttgart", "Bruxelles", "New York", "Rio de Janeiro", "Dubai", "Moscow"]

/-- The builder `buildArcCurve` (source lines 142–146): midpoint of `a` and `b`, control
point lifted radially by the factor `1 + lift`, and the three control points
`[a, up, b]` handed to `new THREE.CatmullRomCurve3`. -/
noncomputable def buildArcCurve (a b : Vec3) (lift : ℝ) : List Vec3 :=
  [a,
   Vec3.smul (norm3 (Vec3.smul 0.5 (Vec3.add a b)) * (1 + lift))
     (normalize3 (Vec3.smul 0.5 (Vec3.add a b))),
   b]

/-- An arc segment, modelling the record pushed into `arcs` in `RoutesWow`
(source lines 272–277).  `curve` holds the Catmull-Rom control points returned
by `buildArcCurve`; the sampled `points` array (`curve.getPoints(170)`) is a
pure function of `curve` and is not needed by any claim. -/
structure Arc where
  key : String
  curve : List Vec3
  phase : ℝ

/-- The loop body of the `data` memo in `RoutesWow` (source lines 262–277):
for each consecutive pair `(ROUTE[i], ROUTE[i+1])`, skip (`continue`) when
either name is absent from the waypoint table, otherwise push an arc built at
radius `radius * 1.01` with lift `0.32` and phase `i * 0.055`.  The index `i`
counts route positions exactly as the `for` loop does. -/
noncomputable def buildArcsAux (city : String → Option City) (radius : ℝ) :
    ℕ → List String → List Arc
  | _, [] => []
  | _, [_] => []
  | i, n1 :: n2 :: rest =>
    match city n1, city n2 with
    | some A, some B =>
      { key := n1 ++ "-" ++ n2,
        curve := buildArcCurve (latLonToVec3 A.lat A.lon (radius * 1.01))
          (latLonToVec3 B.lat B.lon (radius * 1.01)) 0.32,
        phase := (i : ℝ) * 0.055 } :: buildArcsAux city radius (i + 1) (n2 :: rest)
    | _, _ => buildArcsAux city radius (i + 1) (n2 :: rest)

/-- The arc list of `RoutesWow`, starting the loop at index 0. -/
noncomputable def buildArcs (city : String → Option City) (route : List String)
    (radius : ℝ) : List Arc :=
  buildArcsAux city radius 0 route

lemma buildArcsAux_nil (city : String → Option City) (radius : ℝ) (i : ℕ) :
    buildArcsAux city radius i [] = [] := rfl

lemma buildArcsAux_single (city : String → Option City) (radius : ℝ) (i : ℕ)
    (n : String) : buildArcsAux city radius i [n] = [] := rfl

lemma buildArcsAux_cons_some (city : String → Option City) (radius : ℝ) (i : ℕ)
    (n1 n2 : String) (rest : List String) (A B : City)
    (h1 : city n1 = some A) (h2 : city n2 = some B) :
    buildArcsAux city radius i (n1 :: n2 :: rest) =
      { key := n1 ++ "-" ++ n2,
        curve := buildArcCurve (latLonToVec3 A.lat A.lon (radius * 1.01))
          (latLonToVec3 B.lat B.lon (radius * 1.01)) 0.32,
        phase := (i : ℝ) * 0.055 } :: buildArcsAux city radius (i + 1) (n2 :: rest) := by
  conv_lhs => rw [buildArcsAux]
  rw [h1, h2]

lemma buildArcsAux_skip_left (city : String → Option City) (radius : ℝ) (i : ℕ)
    (n1 n2 : String) (rest : List String) (h1 : city n1 = none) :
    buildArcsAux city radius i (n1 :: n2 :: rest) =
      buildArcsAux city radius (i + 1) (n2 :: rest) := by
  conv_lhs => rw [buildArcsAux]
  rw [h1]

lemma buildArcsAux_skip_right (city : String → Option City) (radius : ℝ) (i : ℕ)
    (n1 n2 : String) (rest : List String) (A : City)
    (h1 : city n1 = some A) (h2 : city n2 = none) :
    buildArcsAux city radius i (n1 :: n2 :: rest) =
      buildArcsAux city radius (i + 1) (n2 :: rest) := by
  conv_lhs => rw [buildArcsAux]
  rw [h1, h2]

lemma buildArcsAux_length_all_some (city : String → Option City) (radius : ℝ) :
    ∀ (l : List String), (∀ n ∈ l, (city n).isSome) → ∀ i : ℕ,
      (buildArcsAux city radius i l).length = l.length - 1 := by
  intro l
  induction l with
  | nil => intro _ i; simp [buildArcsAux_nil]
  | cons n1 tl ih =>
    intro h i
    cases tl with
    | nil => simp [buildArcsAux_single]
    | cons n2 rest =>
      obtain ⟨A, hA⟩ := Option.isSome_iff_exists.mp (h n1 (by simp))
      obtain ⟨B, hB⟩ := Option.isSome_iff_exists.mp (h n2 (by simp))
      rw [buildArcsAux_cons_some city radius i n1 n2 rest A B hA hB, List.length_cons,
        ih (fun n hn => h n (by simp [hn])) (i + 1)]
      simp

lemma buildArcsAux_length_bad_head (city : String → Option City) (radius : ℝ)
    (bad : String) (hbad : city bad = none) (l : List String)
    (h : ∀ n ∈ l, (city n).isSome) (i : ℕ) :
    (buildArcsAux city radius i (bad :: l)).length = l.length - 1 := by
  cases l with
  | nil => simp [buildArcsAux_single]
  | cons n2 rest =>
    rw [buildArcsAux_skip_left city radius i bad n2 rest hbad]
    exact buildArcsAux_length_all_some city radius (n2 :: rest) h (i + 1)

lemma buildArcsAux_length_unresolved (city : String → Option City) (radius : ℝ)
    (bad : String) (hbad : city bad = none) (post : List String)
    (hpost : ∀ n ∈ post, (city n).isSome) :
    ∀ (pre : List String), (∀ n ∈ pre, (city n).isSome) → ∀ i : ℕ,
      (buildArcsAux city radius i (pre ++ bad :: post)).length =
        ((pre ++ bad :: post).length - 1) -
          ((if pre = [] then 0 else 1) + (if post = [] then 0 else 1)) := by
  intro pre
  induction pre with
  | nil =>
    intro _ i
    rw [List.nil_append]
    cases post with
    | nil => simp [buildArcsAux_single]
    | cons q qs =>
      rw [buildArcsAux_length_bad_head city radius bad hbad (q :: qs) hpost i]
      simp
  | cons p pre2 ih =>
    intro hpre i
    obtain ⟨A, hA⟩ := Option.isSome_iff_exists.mp (hpre p (by simp))
    cases pre2 with
    | nil =>
      rw [List.cons_append, List.nil_append,
        buildArcsAux_skip_right city radius i p bad post A hA hbad]
      cases post with
      | nil => simp [buildArcsAux_single]
      | cons q qs =>
        rw [buildArcsAux_length_bad_head city radius bad hbad (q :: qs) hpost (i + 1)]
        simp
    | cons p2 pre3 =>
      obtain ⟨A2, hA2⟩ := Option.isSome_iff_exists.mp (hpre p2 (by simp))
      rw [List.cons_append, List.cons_append,
        buildArcsAux_cons_some city radius i p p2 (pre3 ++ bad :: post) A A2 hA hA2,
        List.length_cons]
      rw [← List.cons_append, ih (fun n hn => hpre n (by simp at hn ⊢; tauto)) (i + 1)]
      simp only [List.length_append, List.length_cons, List.cons_ne_nil, if_neg,
        reduceIte]
      rcases post with _ | ⟨q, qs⟩ <;> simp <;> omega

/-- C1 counterexample: over the real waypoint table, the route
`["Lome", "Nowhere", "Abuja"]` contains exactly one unresolved name
(`"Nowhere"`), yet it produces 0 arcs, not the `route.length - 1 - 1 = 1`
arc the claim asserts: an interior unresolved name loses both adjacent
segments. -/
theorem interior_unresolved_counterexample :
    CITY "Lome" ≠ none ∧ CITY "Nowhere" = none ∧ CITY "Abuja" ≠ none ∧
    (buildArcs CITY ["Lome", "Nowhere", "Abuja"] 1).length = 0 ∧
    (["Lome", "Nowhere", "Abuja"].length - 1) - 1 = 1 ∧
    (buildArcs CITY ["Lome", "Nowhere", "Abuja"] 1).length ≠
      (["Lome", "Nowhere", "Abuja"].length - 1) - 1 := by
  refine ⟨?_, rfl, ?_, rfl, rfl, ?_⟩
  · rw [show CITY "Lome" = some ⟨6.1319, 1.2228⟩ from rfl]
    exact fun h => Option.noConfusion h
  · rw [show CITY "Abuja" = some ⟨9.0765, 7.3986⟩ from rfl]
    exact fun h => Option.noConfusion h
  · rw [show (buildArcs CITY ["Lome", "Nowhere", "Abuja"] 1).length = 0 from rfl]
    simp

/-- C1 amended: building the arc list never throws (it is a total computation),
and each unresolved reference is recovered by skipping every adjacent arc
segment.  Hence a route containing one unresolved name produces
`route.length - 1` minus the number of consecutive pairs touching that name:
one fewer arc when it is the first or last element, two fewer when it is
interior. -/
theorem arc_count_unresolved_name (city : String → Option City)
    (pre post : List String) (bad : String) (radius : ℝ)
    (hbad : city bad = none)
    (hpre : ∀ n ∈ pre, (city n).isSome)
    (hpost : ∀ n ∈ post, (city n).isSome) :
    (buildArcs city (pre ++ bad :: post) radius).length =
      ((pre ++ bad :: post).length - 1) -
        ((if pre = [] then 0 else 1) + (if post = [] then 0 else 1)) :=
  buildArcsAux_length_unresolved city radius bad hbad post hpost pre hpre 0

/-- C1 amended witness: the amended count at the concrete route
`["Lome", "Nowhere", "Abuja"]` over the real table (interior unresolved name,
two arcs dropped: 0 arcs remain). -/
theorem arc_count_unresolved_name_witness :
    CITY "Nowhere" = none ∧ (∀ n ∈ ["Lome"], (CITY n).isSome) ∧
    (∀ n ∈ ["Abuja"], (CITY n).isSome) ∧
    (buildArcs CITY (["Lome"] ++ "Nowhere" :: ["Abuja"]) 1).length =
      (((["Lome"] ++ "Nowhere" :: ["Abuja"]).length - 1) -
        ((if (["Lome"] : List String) = [] then 0 else 1) +
          (if (["Abuja"] : List String) = [] then 0 else 1))) := by
  have h1 : ∀ n ∈ ["Lome"], (CITY n).isSome := by
    intro n hn; rw [List.mem_singleton] at hn; subst hn; rfl
  have h2 : ∀ n ∈ ["Abuja"], (CITY n).isSome := by
    intro n hn; rw [List.mem_singleton] at hn; subst hn; rfl
  exact ⟨rfl, h1, h2, arc_count_unresolved_name CITY ["Lome"] ["Abuja"] "Nowhere" 1 rfl h1 h2⟩

/-- The zero vector, used as the out-of-range default for list indexing. -/
def vzero : Vec3 := ⟨0, 0, 0⟩

/-- C2 counterexample: the route `["Lome", "Lome"]`, whose single consecutive
pair resolves to identical endpoints (`a == b`), does **not** have its segment
skipped: `RoutesWow` only skips unresolved names, so exactly one arc is emitted
and its curve's first and last control points coincide. -/
theorem degenerate_pair_counterexample :
    (buildArcs CITY ["Lome", "Lome"] 1).length = 1 ∧
    (buildArcs CITY ["Lome", "Lome"] 1).map (fun arc => arc.curve.getD 0 vzero) =
      (buildArcs CITY ["Lome", "Lome"] 1).map (fun arc => arc.curve.getD 2 vzero) :=
  ⟨rfl, rfl⟩

/-- Every consecutive pair whose names both resolve, wherever it sits in the
route, has its arc emitted, with the pair's key, curve and route-index phase:
the loop's only skip is the unresolved-name check. -/
lemma buildArcsAux_pair_mem (city : String → Option City) (radius : ℝ)
    (n1 n2 : String) (A B : City) (h1 : city n1 = some A) (h2 : city n2 = some B)
    (rest : List String) :
    ∀ (pre : List String) (i : ℕ),
      { key := n1 ++ "-" ++ n2,
        curve := buildArcCurve (latLonToVec3 A.lat A.lon (radius * 1.01))
          (latLonToVec3 B.lat B.lon (radius * 1.01)) 0.32,
        phase := ((i + pre.length : ℕ) : ℝ) * 0.055 } ∈
        buildArcsAux city radius i (pre ++ n1 :: n2 :: rest) := by
  intro pre
  induction pre with
  | nil =>
    intro i
    rw [List.nil_append,
      buildArcsAux_cons_some city radius i n1 n2 rest A B h1 h2]
    simp
  | cons p pre2 ih =>
    intro i
    rw [show (i + (p :: pre2).length) = (i + 1) + pre2.length from by
      simp only [List.length_cons]; omega]
    rw [List.cons_append]
    cases hp : pre2 ++ n1 :: n2 :: rest with
    | nil => simp at hp
    | cons y rest2 =>
      have hmem := ih (i + 1)
      rw [hp] at hmem
      rcases hcp : city p with _ | P
      · rw [buildArcsAux_skip_left city radius i p y rest2 hcp]
        exact hmem
      · rcases hcy : city y with _ | Q
        · rw [buildArcsAux_skip_right city radius i p y rest2 P hcp hcy]
          exact hmem
        · rw [buildArcsAux_cons_some city radius i p y rest2 P Q hcp hcy]
          exact List.mem_cons_of_mem _ hmem

/-- C2 amended: for every consecutive pair of route names whose names both
resolve, in any route context, the builder emits the arc segment for that pair
(key `n1-n2`, phase at the pair's route index, curve built from the two
resolved endpoints) — skipping happens only for unresolved names.  In
particular a pair resolving to identical endpoints (a repeated name, or
distinct names with equal positions) is **not** skipped: its arc is emitted
and its curve has identical first and last control points; no exception is
raised (the builder and `buildArcCurve` are total on identical endpoints). -/
theorem degenerate_pair_not_skipped (city : String → Option City)
    (pre post : List String) (n1 n2 : String) (c1 c2 : City) (radius : ℝ)
    (h1 : city n1 = some c1) (h2 : city n2 = some c2)
    (hdeg : latLonToVec3 c1.lat c1.lon (radius * 1.01) =
      latLonToVec3 c2.lat c2.lon (radius * 1.01)) :
    { key := n1 ++ "-" ++ n2,
      curve := buildArcCurve (latLonToVec3 c1.lat c1.lon (radius * 1.01))
        (latLonToVec3 c2.lat c2.lon (radius * 1.01)) 0.32,
      phase := (pre.length : ℝ) * 0.055 } ∈
      buildArcs city (pre ++ n1 :: n2 :: post) radius ∧
    (buildArcCurve (latLonToVec3 c1.lat c1.lon (radius * 1.01))
        (latLonToVec3 c2.lat c2.lon (radius * 1.01)) 0.32).getD 0 vzero =
      (buildArcCurve (latLonToVec3 c1.lat c1.lon (radius * 1.01))
        (latLonToVec3 c2.lat c2.lon (radius * 1.01)) 0.32).getD 2 vzero := by
  constructor
  · have hmem := buildArcsAux_pair_mem city radius n1 n2 c1 c2 h1 h2 post pre 0
    rw [show (0 + pre.length) = pre.length from Nat.zero_add _] at hmem
    exact hmem
  · exact hdeg

/-- C2 amended witness: the repeated name `"Lome"` forming a degenerate pair in
the interior of the longer route `["Abuja", "Lome", "Lome", "Lagos"]`, over the
real waypoint table. -/
theorem degenerate_pair_not_skipped_witness :
    CITY "Lome" = some ⟨6.1319, 1.2228⟩ ∧
    latLonToVec3 (6.1319 : ℝ) (1.2228 : ℝ) (1 * 1.01) =
      latLonToVec3 (6.1319 : ℝ) (1.2228 : ℝ) (1 * 1.01) ∧
    ({ key := "Lome" ++ "-" ++ "Lome",
       curve := buildArcCurve (latLonToVec3 (6.1319 : ℝ) (1.2228 : ℝ) (1 * 1.01))
         (latLonToVec3 (6.1319 : ℝ) (1.2228 : ℝ) (1 * 1.01)) 0.32,
       phase := ((["Abuja"] : List String).length : ℝ) * 0.055 } ∈
       buildArcs CITY (["Abuja"] ++ "Lome" :: "Lome" :: ["Lagos"]) 1 ∧
     (buildArcCurve (latLonToVec3 (6.1319 : ℝ) (1.2228 : ℝ) (1 * 1.01))
         (latLonToVec3 (6.1319 : ℝ) (1.2228 : ℝ) (1 * 1.01)) 0.32).getD 0 vzero =
       (buildArcCurve (latLonToVec3 (6.1319 : ℝ) (1.2228 : ℝ) (1 * 1.01))
         (latLonToVec3 (6.1319 : ℝ) (1.2228 : ℝ) (1 * 1.01)) 0.32).getD 2 vzero) :=
  ⟨rfl, rfl,
    degenerate_pair_not_skipped CITY ["Abuja"] ["Lagos"] "Lome" "Lome"
      ⟨6.1319, 1.2228⟩ ⟨6.1319, 1.2228⟩ 1 rfl rfl rfl⟩

lemma buildArcsAux_phase (city : String → Option City) (radius : ℝ) :
    ∀ (l : List String) (i : ℕ),
      (buildArcsAux city radius i l).Pairwise (fun a b => a.phase < b.phase) ∧
      ∀ arc ∈ buildArcsAux city radius i l,
        ∃ j : ℕ, i ≤ j ∧ j + 1 < i + l.length ∧ arc.phase = (j : ℝ) * 0.055 := by
  intro l
  induction l with
  | nil => intro i; simp [buildArcsAux_nil]
  | cons n1 tl ih =>
    intro i
    cases tl with
    | nil => simp [buildArcsAux_single]
    | cons n2 rest =>
      rcases h1 : city n1 with _ | A
      · rw [buildArcsAux_skip_left city radius i n1 n2 rest h1]
        refine ⟨(ih (i + 1)).1, fun arc harc => ?_⟩
        obtain ⟨j, hj1, hj2, hj3⟩ := (ih (i + 1)).2 arc harc
        exact ⟨j, by omega, by simp at hj2 ⊢; omega, hj3⟩
      · rcases h2 : city n2 with _ | B
        · rw [buildArcsAux_skip_right city radius i n1 n2 rest A h1 h2]
          refine ⟨(ih (i + 1)).1, fun arc harc => ?_⟩
          obtain ⟨j, hj1, hj2, hj3⟩ := (ih (i + 1)).2 arc harc
          exact ⟨j, by omega, by simp at hj2 ⊢; omega, hj3⟩
        · rw [buildArcsAux_cons_some city radius i n1 n2 rest A B h1 h2]
          constructor
          · rw [List.pairwise_cons]
            refine ⟨fun b hb => ?_, (ih (i + 1)).1⟩
            obtain ⟨j, hj1, _, hj3⟩ := (ih (i + 1)).2 b hb
            show (i : ℝ) * 0.055 < b.phase
            rw [hj3]
            have : (i : ℝ) < (j : ℝ) := by exact_mod_cast by omega
            nlinarith
          · intro arc harc
            rcases List.mem_cons.mp harc with h | h
            · exact ⟨i, le_refl i, by simp only [List.length_cons]; omega, by rw [h]⟩
            · obtain ⟨j, hj1, hj2, hj3⟩ := (ih (i + 1)).2 arc h
              exact ⟨j, by omega, by simp at hj2 ⊢; omega, hj3⟩

/-- C9: for every waypoint table, route and radius, the `animationPhase` values
of the built arc segments are strictly increasing with segment index (hence
pairwise distinct), and each phase is proportional to the segment's index in
the route: it equals `i * 0.055` for the route position `i` of the segment's
first endpoint. -/
theorem comet_phase_staggering (city : String → Option City) (route : List String)
    (radius : ℝ) :
    ((buildArcs city route radius).map Arc.phase).Pairwise (fun p q => p < q) ∧
    ((buildArcs city route radius).map Arc.phase).Pairwise (fun p q => p ≠ q) ∧
    ∀ p ∈ (buildArcs city route radius).map Arc.phase,
      ∃ i : ℕ, i < route.length ∧ p = (i : ℝ) * 0.055 := by
  obtain ⟨hpair, hmem⟩ := buildArcsAux_phase city radius route 0
  have hlt : ((buildArcs city route radius).map Arc.phase).Pairwise (fun p q => p < q) :=
    List.pairwise_map.mpr hpair
  refine ⟨hlt, hlt.imp ne_of_lt, fun p hp => ?_⟩
  obtain ⟨arc, harc, rfl⟩ := List.mem_map.mp hp
  obtain ⟨j, _, hj2, hj3⟩ := hmem arc harc
  exact ⟨j, by omega, hj3⟩

/-- A non-null focus target, modelling the `FocusTarget` record of the source
(lines 151–154); nullability is `Option FocusTarget`. -/
structure FocusTarget where
  camPos : Vec3
  lookAt : Vec3

/-- The mutable state driven by `CameraRig` each frame: the live camera
position, the orbit-controls object (modelled by its `target` vector, `none`
while `controlsRef.current` is null) and the pending focus target
(`current.current`, `none` in the Idle state). -/
structure RigState where
  camPos : Vec3
  controls : Option Vec3
  focus : Option FocusTarget

/-- Model of `THREE.Vector3.lerp(target, alpha)`: `this + (target - this) * alpha`
componentwise. -/
noncomputable def lerpV (v target : Vec3) (alpha : ℝ) : Vec3 :=
  ⟨v.x + (target.x - v.x) * alpha,
   v.y + (target.y - v.y) * alpha,
   v.z + (target.z - v.z) * alpha⟩

/-- One damped easing step of `CameraRig` (source lines 175 and 180):
`value.lerp(target, 1 - Math.pow(0.001, delta))`.  The exponent is a real, so
`Math.pow` is `Real.rpow`. -/
noncomputable def easeStep (v target : Vec3) (delta : ℝ) : Vec3 :=
  lerpV v target (1 - (0.001 : ℝ) ^ delta)

/-- The focus target computed by `handleClickCity` (source lines 527–534):
camera position along `normalize(pos)` at distance 3.2, look-at pulled inward
by the factor 0.85. -/
noncomputable def mkFocus (pos : Vec3) : FocusTarget :=
  ⟨Vec3.smul 3.2 (normalize3 pos), Vec3.smul 0.85 pos⟩

/-- A `select(name, position)` event: `handleClickCity` stores the computed
target via `setFocusTarget`, and `CameraRig`'s effect copies any non-null
target into `current.current`.  The live camera state is untouched. -/
noncomputable def select (s : RigState) (pos : Vec3) : RigState :=
  { s with focus := some (mkFocus pos) }

/-- The `useFrame` body of `CameraRig` (source lines 170–190): do nothing when
Idle; otherwise lerp the camera position, lerp the controls target when the
controls object exists, and clear the focus (`current.current = null`) exactly
when the post-update camera distance is below 0.01 **and** the controls object
exists with post-update look-at distance below 0.01 (`tgtClose` is falsy when
`controls` is null). -/
noncomputable def frame (s : RigState) (delta : ℝ) : RigState :=
  match s.focus with
  | none => s
  | some t =>
    match s.controls with
    | none => ⟨easeStep s.camPos t.camPos delta, none, some t⟩
    | some c =>
      ⟨easeStep s.camPos t.camPos delta, some (easeStep c t.lookAt delta),
       if dist3 (easeStep s.camPos t.camPos delta) t.camPos < 0.01 ∧
          dist3 (easeStep c t.lookAt delta) t.lookAt < 0.01
       then none else some t⟩

lemma dist3_nonneg (u v : Vec3) : 0 ≤ dist3 u v := Real.sqrt_nonneg _

lemma dist3_eq_zero_iff (u v : Vec3) : dist3 u v = 0 ↔ u = v := by
  unfold dist3
  rw [Real.sqrt_eq_zero (by positivity)]
  constructor
  · intro h
    have hx : u.x - v.x = 0 := by nlinarith [sq_nonneg (u.x - v.x), sq_nonneg (u.y - v.y), sq_nonneg (u.z - v.z)]
    have hy : u.y - v.y = 0 := by nlinarith [sq_nonneg (u.x - v.x), sq_nonneg (u.y - v.y), sq_nonneg (u.z - v.z)]
    have hz : u.z - v.z = 0 := by nlinarith [sq_nonneg (u.x - v.x), sq_nonneg (u.y - v.y), sq_nonneg (u.z - v.z)]
    ext <;> linarith
  · intro h
    rw [h]
    ring

lemma dist3_pos_of_ne {u v : Vec3} (h : u ≠ v) : 0 < dist3 u v :=
  lt_of_le_of_ne (dist3_nonneg u v) (fun h0 => h ((dist3_eq_zero_iff u v).mp h0.symm))

lemma rpow_base_pos (delta : ℝ) : 0 < (0.001 : ℝ) ^ delta :=
  Real.rpow_pos_of_pos (by norm_num) delta

lemma rpow_base_lt_one {delta : ℝ} (hδ : 0 < delta) : (0.001 : ℝ) ^ delta < 1 :=
  Real.rpow_lt_one (by norm_num) (by norm_num) hδ

/-- Each easing step contracts the distance to the target by exactly the
factor `0.001 ^ delta`. -/
lemma ease_dist (v target : Vec3) (delta : ℝ) :
    dist3 (easeStep v target delta) target = (0.001 : ℝ) ^ delta * dist3 v target := by
  have hr : 0 < (0.001 : ℝ) ^ delta := rpow_base_pos delta
  have key : ∀ a b : ℝ, (a + (b - a) * (1 - (0.001 : ℝ) ^ delta) - b) ^ 2 =
      ((0.001 : ℝ) ^ delta) ^ 2 * (a - b) ^ 2 := fun a b => by ring
  unfold easeStep lerpV dist3
  dsimp only
  rw [key, key, key]
  rw [show ((0.001 : ℝ) ^ delta) ^ 2 * (v.x - target.x) ^ 2 +
      ((0.001 : ℝ) ^ delta) ^ 2 * (v.y - target.y) ^ 2 +
      ((0.001 : ℝ) ^ delta) ^ 2 * (v.z - target.z) ^ 2 =
      ((0.001 : ℝ) ^ delta) ^ 2 *
        ((v.x - target.x) ^ 2 + (v.y - target.y) ^ 2 + (v.z - target.z) ^ 2) from by ring]
  rw [Real.sqrt_mul (sq_nonneg _), Real.sqrt_sq hr.le]

/-- C3: while Converging, each per-frame easing step applies
`lerp(current, target, 1 - 0.001 ^ delta)` with damping base `0.001 ∈ (0, 1)`;
with positive `delta` and the value not yet at the target, the distance to the
target strictly decreases (and stays nonzero, so it keeps strictly decreasing
step-over-step), and composing steps of `d1` then `d2` equals one step of
`d1 + d2`, so the result depends only on the sum of the deltas. -/
theorem ease_strict_decrease_additive (cur target : Vec3) (d1 d2 : ℝ)
    (h1 : 0 < d1) (h2 : 0 < d2) (hne : cur ≠ target) :
    dist3 (easeStep cur target d1) target < dist3 cur target ∧
    easeStep cur target d1 ≠ target ∧
    easeStep (easeStep cur target d1) target d2 = easeStep cur target (d1 + d2) ∧
    (0 : ℝ) < 0.001 ∧ (0.001 : ℝ) < 1 := by
  have hd : 0 < dist3 cur target := dist3_pos_of_ne hne
  have hr1 : (0.001 : ℝ) ^ d1 < 1 := rpow_base_lt_one h1
  have hr0 : 0 < (0.001 : ℝ) ^ d1 := rpow_base_pos d1
  refine ⟨?_, ?_, ?_, by norm_num, by norm_num⟩
  · rw [ease_dist]
    nlinarith
  · intro h
    have h0 : dist3 (easeStep cur target d1) target = 0 := by
      rw [(dist3_eq_zero_iff _ _).mpr h]
    rw [ease_dist] at h0
    nlinarith
  · have hadd : (0.001 : ℝ) ^ (d1 + d2) = (0.001 : ℝ) ^ d1 * (0.001 : ℝ) ^ d2 :=
      Real.rpow_add (by norm_num) d1 d2
    unfold easeStep lerpV
    ext <;> simp only <;> rw [hadd] <;> ring

/-- C3 witness: the easing-step properties at `cur = (1,0,0)`, `target = 0`,
`d1 = d2 = 1`. -/
theorem ease_strict_decrease_additive_witness :
    (0 : ℝ) < 1 ∧ (Vec3.mk 1 0 0 ≠ Vec3.mk 0 0 0) ∧
    (dist3 (easeStep ⟨1, 0, 0⟩ ⟨0, 0, 0⟩ 1) ⟨0, 0, 0⟩ < dist3 ⟨1, 0, 0⟩ ⟨0, 0, 0⟩ ∧
     easeStep ⟨1, 0, 0⟩ ⟨0, 0, 0⟩ 1 ≠ ⟨0, 0, 0⟩ ∧
     easeStep (easeStep ⟨1, 0, 0⟩ ⟨0, 0, 0⟩ 1) ⟨0, 0, 0⟩ 1 = easeStep ⟨1, 0, 0⟩ ⟨0, 0, 0⟩ (1 + 1) ∧
     (0 : ℝ) < 0.001 ∧ (0.001 : ℝ) < 1) := by
  have hne : Vec3.mk 1 0 0 ≠ Vec3.mk 0 0 0 := by
    intro h
    exact one_ne_zero (congrArg Vec3.x h)
  exact ⟨by norm_num, hne,
    ease_strict_decrease_additive ⟨1, 0, 0⟩ ⟨0, 0, 0⟩ 1 1 (by norm_num) (by norm_num) hne⟩

/-- C6: every `select(name, position)` event computes a focus target with
`cameraPosition = normalize(position) * 3.2` (the camera distance constant)
and `lookAtPoint = position * 0.85`, where the inward factor `0.85 < 1`. -/
theorem select_focus_formula (s : RigState) (pos : Vec3) :
    (select s pos).focus =
      some ⟨Vec3.smul 3.2 (normalize3 pos), Vec3.smul 0.85 pos⟩ ∧
    (0.85 : ℝ) < 1 :=
  ⟨rfl, by norm_num⟩

lemma frame_focus_none (cp : Vec3) (ctrl : Option Vec3) (delta : ℝ) :
    frame ⟨cp, ctrl, none⟩ delta = ⟨cp, ctrl, none⟩ := rfl

lemma frame_no_controls (cp : Vec3) (t : FocusTarget) (delta : ℝ) :
    frame ⟨cp, none, some t⟩ delta = ⟨easeStep cp t.camPos delta, none, some t⟩ := rfl

lemma frame_full (cp c : Vec3) (t : FocusTarget) (delta : ℝ) :
    frame ⟨cp, some c, some t⟩ delta =
      ⟨easeStep cp t.camPos delta, some (easeStep c t.lookAt delta),
       if dist3 (easeStep cp t.camPos delta) t.camPos < 0.01 ∧
          dist3 (easeStep c t.lookAt delta) t.lookAt < 0.01
       then none else some t⟩ := rfl

/-- C10: while the orbit-controls object is absent, `tgtClose` is falsy, so the
per-frame update never clears the focus target — even when the camera is within
epsilon — and the state stays Converging over any number of frames; dually,
clearing the focus requires the controls object to exist with its (post-update)
look-at distance below epsilon. -/
theorem no_controls_never_idle (s : RigState) (t : FocusTarget) (delta : ℝ)
    (hf : s.focus = some t) (hc : s.controls = none) :
    (∀ n : ℕ, ((fun st => frame st delta)^[n] s).focus = some t) ∧
    (∀ (s2 : RigState) (t2 : FocusTarget), s2.focus = some t2 →
      (frame s2 delta).focus = none →
      ∃ c2, s2.controls = some c2 ∧
        dist3 (easeStep c2 t2.lookAt delta) t2.lookAt < 0.01) := by
  constructor
  · obtain ⟨cp, ctrl, f⟩ := s
    simp only at hf hc
    subst hf; subst hc
    have key : ∀ n : ℕ, ∃ q : Vec3,
        ((fun st => frame st delta)^[n] ⟨cp, none, some t⟩) = ⟨q, none, some t⟩ := by
      intro n
      induction n with
      | zero => exact ⟨cp, rfl⟩
      | succ n ihn =>
        obtain ⟨q, hq⟩ := ihn
        refine ⟨easeStep q t.camPos delta, ?_⟩
        rw [Function.iterate_succ_apply', hq, frame_no_controls]
    intro n
    obtain ⟨q, hq⟩ := key n
    rw [hq]
  · intro s2 t2 hf2 hclear
    obtain ⟨cp, ctrl, f⟩ := s2
    simp only at hf2
    subst hf2
    cases ctrl with
    | none => rw [frame_no_controls] at hclear; exact Option.noConfusion hclear
    | some c2 =>
      rw [frame_full] at hclear
      by_cases hcond : dist3 (easeStep cp t2.camPos delta) t2.camPos < 0.01 ∧
          dist3 (easeStep c2 t2.lookAt delta) t2.lookAt < 0.01
      · exact ⟨c2, rfl, hcond.2⟩
      · rw [if_neg hcond] at hclear
        exact Option.noConfusion hclear

/-- C10 witness: a state whose camera already coincides with the target
position (distance 0 < epsilon) but whose controls object is null stays
Converging forever. -/
theorem no_controls_never_idle_witness :
    (RigState.mk ⟨0, 0, 0⟩ none (some ⟨⟨0, 0, 0⟩, ⟨0, 0, 0⟩⟩)).focus =
      some ⟨⟨0, 0, 0⟩, ⟨0, 0, 0⟩⟩ ∧
    (RigState.mk ⟨0, 0, 0⟩ none (some ⟨⟨0, 0, 0⟩, ⟨0, 0, 0⟩⟩)).controls = none ∧
    dist3 ⟨0, 0, 0⟩ ⟨0, 0, 0⟩ < 0.01 ∧
    ((∀ n : ℕ, ((fun st => frame st 1)^[n]
        (RigState.mk ⟨0, 0, 0⟩ none (some ⟨⟨0, 0, 0⟩, ⟨0, 0, 0⟩⟩))).focus =
          some ⟨⟨0, 0, 0⟩, ⟨0, 0, 0⟩⟩) ∧
     (∀ (s2 : RigState) (t2 : FocusTarget), s2.focus = some t2 →
       (frame s2 1).focus = none →
       ∃ c2, s2.controls = some c2 ∧
         dist3 (easeStep c2 t2.lookAt 1) t2.lookAt < 0.01)) := by
  refine ⟨rfl, rfl, ?_, no_controls_never_idle _ _ 1 rfl rfl⟩
  have : dist3 ⟨0, 0, 0⟩ ⟨0, 0, 0⟩ = 0 := (dist3_eq_zero_iff _ _).mpr rfl
  rw [this]
  norm_num

/-- Once Idle, a frame is a no-op. -/
lemma frame_of_focus_none (s : RigState) (delta : ℝ) (h : s.focus = none) :
    frame s delta = s := by
  obtain ⟨cp, ctrl, f⟩ := s
  simp only at h
  subst h
  rfl

/-- While both the focus and the controls are live, iterating the frame update
either reaches Idle or scales both distances by `(0.001 ^ delta) ^ n`. -/
lemma frame_iterate_invariant (t : FocusTarget) (delta : ℝ) (cp c : Vec3) :
    ∀ n : ℕ,
      ((fun st => frame st delta)^[n] ⟨cp, some c, some t⟩).focus = none ∨
      ∃ q p : Vec3,
        ((fun st => frame st delta)^[n] ⟨cp, some c, some t⟩) = ⟨q, some p, some t⟩ ∧
        dist3 q t.camPos = ((0.001 : ℝ) ^ delta) ^ n * dist3 cp t.camPos ∧
        dist3 p t.lookAt = ((0.001 : ℝ) ^ delta) ^ n * dist3 c t.lookAt := by
  intro n
  induction n with
  | zero => exact Or.inr ⟨cp, c, rfl, by norm_num, by norm_num⟩
  | succ n ihn =>
    rw [Function.iterate_succ_apply']
    rcases ihn with h | ⟨q, p, hs, hq, hp⟩
    · left
      rw [frame_of_focus_none _ delta h]
      exact h
    · rw [hs, frame_full]
      by_cases hcond : dist3 (easeStep q t.camPos delta) t.camPos < 0.01 ∧
          dist3 (easeStep p t.lookAt delta) t.lookAt < 0.01
      · left
        rw [if_pos hcond]
      · right
        refine ⟨easeStep q t.camPos delta, easeStep p t.lookAt delta,
          by rw [if_neg hcond], ?_, ?_⟩
        · rw [ease_dist, hq, pow_succ]
          ring
        · rw [ease_dist, hp, pow_succ]
          ring

/-- With a live controls object and any fixed positive frame interval, the
Converging state is always left after finitely many frames. -/
lemma frame_iterate_converges (s : RigState) (t : FocusTarget) (c : Vec3)
    (delta : ℝ) (hδ : 0 < delta) (hf : s.focus = some t) (hc : s.controls = some c) :
    ∃ n : ℕ, ((fun st => frame st delta)^[n] s).focus = none := by
  obtain ⟨cp, ctrl, f⟩ := s
  simp only at hf hc
  subst hf; subst hc
  have hr0 : 0 < (0.001 : ℝ) ^ delta := rpow_base_pos delta
  have hr1 : (0.001 : ℝ) ^ delta < 1 := rpow_base_lt_one hδ
  have hd0 : 0 ≤ dist3 cp t.camPos := dist3_nonneg _ _
  have he0 : 0 ≤ dist3 c t.lookAt := dist3_nonneg _ _
  obtain ⟨N, hN⟩ := exists_pow_lt_of_lt_one
    (show (0 : ℝ) < 0.01 / (dist3 cp t.camPos + dist3 c t.lookAt + 1) by positivity) hr1
  rw [lt_div_iff (by positivity)] at hN
  have hrN : 0 < ((0.001 : ℝ) ^ delta) ^ N := pow_pos hr0 N
  have hNd : ((0.001 : ℝ) ^ delta) ^ N * dist3 cp t.camPos < 0.01 := by
    nlinarith [mul_nonneg hrN.le he0, hrN.le]
  have hNe : ((0.001 : ℝ) ^ delta) ^ N * dist3 c t.lookAt < 0.01 := by
    nlinarith [mul_nonneg hrN.le hd0, hrN.le]
  rcases frame_iterate_invariant t delta cp c N with h | ⟨q, p, hs, hq, hp⟩
  · exact ⟨N, h⟩
  · refine ⟨N + 1, ?_⟩
    rw [Function.iterate_succ_apply', hs, frame_full]
    have hcond : dist3 (easeStep q t.camPos delta) t.camPos < 0.01 ∧
        dist3 (easeStep p t.lookAt delta) t.lookAt < 0.01 := by
      constructor
      · rw [ease_dist, hq]
        nlinarith [mul_nonneg (sub_nonneg.mpr hr1.le) (mul_nonneg hrN.le hd0)]
      · rw [ease_dist, hp]
        nlinarith [mul_nonneg (sub_nonneg.mpr hr1.le) (mul_nonneg hrN.le he0)]
    rw [if_pos hcond]

/-- While Converging, the camera position is eased regardless of whether the
controls object exists. -/
lemma frame_camPos_of_focus_some (s : RigState) (t : FocusTarget) (delta : ℝ)
    (h : s.focus = some t) :
    (frame s delta).camPos = easeStep s.camPos t.camPos delta := by
  obtain ⟨cp, ctrl, f⟩ := s
  simp only at h
  subst h
  cases ctrl with
  | none => rfl
  | some cc => rw [frame_full]

/-- The frame update clears the focus exactly when the (post-update) camera
distance is below epsilon and the controls object exists with (post-update)
look-at distance below epsilon. -/
lemma frame_clear_iff (s2 : RigState) (t : FocusTarget) (delta : ℝ)
    (h : s2.focus = some t) :
    ((frame s2 delta).focus = none ↔
      (dist3 (frame s2 delta).camPos t.camPos < 0.01 ∧
       ∃ c2, (frame s2 delta).controls = some c2 ∧ dist3 c2 t.lookAt < 0.01)) := by
  obtain ⟨cp, ctrl, f⟩ := s2
  simp only at h
  subst h
  cases ctrl with
  | none =>
    rw [frame_no_controls]
    simp
  | some cc =>
    rw [frame_full]
    by_cases hcond : dist3 (easeStep cp t.camPos delta) t.camPos < 0.01 ∧
        dist3 (easeStep cc t.lookAt delta) t.lookAt < 0.01
    · rw [if_pos hcond]
      dsimp only
      simp only [Option.some.injEq]
      exact iff_of_true (by trivial) ⟨hcond.1, easeStep cc t.lookAt delta, rfl, hcond.2⟩
    · rw [if_neg hcond]
      dsimp only
      simp only [Option.some.injEq]
      constructor
      · intro hh
        exact Option.noConfusion hh
      · rintro ⟨h1, c2, hc2, h3⟩
        subst hc2
        exact absurd ⟨h1, h3⟩ hcond

lemma frame_controls_isSome (s : RigState) (delta : ℝ) (c : Vec3)
    (hc : s.controls = some c) : ∃ c2, (frame s delta).controls = some c2 := by
  obtain ⟨cp, ctrl, f⟩ := s
  simp only at hc
  subst hc
  cases f with
  | none => exact ⟨c, rfl⟩
  | some t =>
    rw [frame_full]
    by_cases hcond : dist3 (easeStep cp t.camPos delta) t.camPos < 0.01 ∧
        dist3 (easeStep c t.lookAt delta) t.lookAt < 0.01
    · rw [if_pos hcond]
      exact ⟨easeStep c t.lookAt delta, rfl⟩
    · rw [if_neg hcond]
      exact ⟨easeStep c t.lookAt delta, rfl⟩

lemma iterate_controls_isSome (s : RigState) (delta : ℝ) (c : Vec3)
    (hc : s.controls = some c) :
    ∀ n : ℕ, ∃ c2, ((fun st => frame st delta)^[n] s).controls = some c2 := by
  intro n
  induction n generalizing s c with
  | zero => exact ⟨c, hc⟩
  | succ n ihn =>
    rw [Function.iterate_succ_apply]
    obtain ⟨c2, hc2⟩ := frame_controls_isSome s delta c hc
    exact ihn (frame s delta) c2 hc2

/-- C4: a `select` event puts the controller into Converging (a non-null
focus target); the per-frame update returns it to Idle exactly when both the
camera-position distance and the (existing) controls look-at distance fall
below the fixed epsilon 0.01; and with the controls object mounted, repeated
frames of any fixed positive `delta` eventually reach Idle, so every select is
followed by a return to Idle. -/
theorem camera_focus_cycle (s : RigState) (pos c : Vec3) (delta : ℝ)
    (hc : s.controls = some c) (hδ : 0 < delta) :
    (select s pos).focus = some (mkFocus pos) ∧
    (∀ (s2 : RigState) (t : FocusTarget), s2.focus = some t →
      ((frame s2 delta).focus = none ↔
        (dist3 (frame s2 delta).camPos t.camPos < 0.01 ∧
         ∃ c2, (frame s2 delta).controls = some c2 ∧ dist3 c2 t.lookAt < 0.01))) ∧
    ∃ n : ℕ, ((fun st => frame st delta)^[n] (select s pos)).focus = none := by
  refine ⟨rfl, fun s2 t ht => frame_clear_iff s2 t delta ht, ?_⟩
  exact frame_iterate_converges (select s pos) (mkFocus pos) c delta hδ rfl hc

/-- C4 witness: the select/converge/clear cycle from the origin state with a
mounted controls object, `select` at `(1,0,0)` and frame interval 1. -/
theorem camera_focus_cycle_witness :
    (RigState.mk ⟨0, 0, 0⟩ (some ⟨0, 0, 0⟩) none).controls = some ⟨0, 0, 0⟩ ∧
    (0 : ℝ) < 1 ∧
    ((select (RigState.mk ⟨0, 0, 0⟩ (some ⟨0, 0, 0⟩) none) ⟨1, 0, 0⟩).focus =
        some (mkFocus ⟨1, 0, 0⟩) ∧
     (∀ (s2 : RigState) (t : FocusTarget), s2.focus = some t →
       ((frame s2 1).focus = none ↔
         (dist3 (frame s2 1).camPos t.camPos < 0.01 ∧
          ∃ c2, (frame s2 1).controls = some c2 ∧ dist3 c2 t.lookAt < 0.01))) ∧
     ∃ n : ℕ, ((fun st => frame st 1)^[n]
        (select (RigState.mk ⟨0, 0, 0⟩ (some ⟨0, 0, 0⟩) none) ⟨1, 0, 0⟩)).focus = none) :=
  ⟨rfl, by norm_num,
    camera_focus_cycle (RigState.mk ⟨0, 0, 0⟩ (some ⟨0, 0, 0⟩) none) ⟨1, 0, 0⟩ ⟨0, 0, 0⟩ 1
      rfl (by norm_num)⟩

/-- C5: if a second `select` (target B) arrives after `n` frames while the
controller is still Converging toward A's target, the overwrite leaves the
live camera position and the live controls state untouched at that instant
(only the focus target changes to B's), and subsequent convergence proceeds
toward B's target from the camera's current values: the next frame contracts
the distance to B's camera target by exactly `0.001 ^ delta`, and with the
controls mounted the controller eventually reaches B's target and Idle. -/
theorem reselect_overwrite (s : RigState) (posA posB c : Vec3) (delta : ℝ) (n : ℕ)
    (hδ : 0 < delta) (hc : s.controls = some c)
    (hmid : ((fun st => frame st delta)^[n] (select s posA)).focus =
      some (mkFocus posA)) :
    (select ((fun st => frame st delta)^[n] (select s posA)) posB).camPos =
      ((fun st => frame st delta)^[n] (select s posA)).camPos ∧
    (select ((fun st => frame st delta)^[n] (select s posA)) posB).controls =
      ((fun st => frame st delta)^[n] (select s posA)).controls ∧
    (select ((fun st => frame st delta)^[n] (select s posA)) posB).focus =
      some (mkFocus posB) ∧
    dist3 (frame (select ((fun st => frame st delta)^[n] (select s posA)) posB)
        delta).camPos (mkFocus posB).camPos =
      (0.001 : ℝ) ^ delta *
        dist3 ((fun st => frame st delta)^[n] (select s posA)).camPos
          (mkFocus posB).camPos ∧
    ∃ m : ℕ, ((fun st => frame st delta)^[m]
      (select ((fun st => frame st delta)^[n] (select s posA)) posB)).focus = none := by
  have hcontrols : ∃ c2,
      ((fun st => frame st delta)^[n] (select s posA)).controls = some c2 :=
    iterate_controls_isSome (select s posA) delta c hc n
  obtain ⟨c2, hc2⟩ := hcontrols
  refine ⟨rfl, rfl, rfl, ?_, ?_⟩
  · rw [frame_camPos_of_focus_some
      (select ((fun st => frame st delta)^[n] (select s posA)) posB)
      (mkFocus posB) delta rfl]
    exact ease_dist _ _ delta
  · exact frame_iterate_converges _ (mkFocus posB) c2 delta hδ rfl hc2

/-- C5 witness: reselect immediately after the first select (`n = 0`), from a
state with a mounted controls object. -/
theorem reselect_overwrite_witness :
    (0 : ℝ) < 1 ∧
    (RigState.mk ⟨5, 0, 0⟩ (some ⟨0, 0, 0⟩) none).controls = some ⟨0, 0, 0⟩ ∧
    ((fun st => frame st 1)^[0]
      (select (RigState.mk ⟨5, 0, 0⟩ (some ⟨0, 0, 0⟩) none) ⟨1, 0, 0⟩)).focus =
        some (mkFocus ⟨1, 0, 0⟩) ∧
    ((select ((fun st => frame st 1)^[0]
        (select (RigState.mk ⟨5, 0, 0⟩ (some ⟨0, 0, 0⟩) none) ⟨1, 0, 0⟩)) ⟨0, 1, 0⟩).camPos =
      ((fun st => frame st 1)^[0]
        (select (RigState.mk ⟨5, 0, 0⟩ (some ⟨0, 0, 0⟩) none) ⟨1, 0, 0⟩)).camPos ∧
     (select ((fun st => frame st 1)^[0]
        (select (RigState.mk ⟨5, 0, 0⟩ (some ⟨0, 0, 0⟩) none) ⟨1, 0, 0⟩)) ⟨0, 1, 0⟩).controls =
      ((fun st => frame st 1)^[0]
        (select (RigState.mk ⟨5, 0, 0⟩ (some ⟨0, 0, 0⟩) none) ⟨1, 0, 0⟩)).controls ∧
     (select ((fun st => frame st 1)^[0]
        (select (RigState.mk ⟨5, 0, 0⟩ (some ⟨0, 0, 0⟩) none) ⟨1, 0, 0⟩)) ⟨0, 1, 0⟩).focus =
      some (mkFocus ⟨0, 1, 0⟩) ∧
     dist3 (frame (select ((fun st => frame st 1)^[0]
        (select (RigState.mk ⟨5, 0, 0⟩ (some ⟨0, 0, 0⟩) none) ⟨1, 0, 0⟩)) ⟨0, 1, 0⟩)
         1).camPos (mkFocus ⟨0, 1, 0⟩).camPos =
       (0.001 : ℝ) ^ (1 : ℝ) *
         dist3 ((fun st => frame st 1)^[0]
            (select (RigState.mk ⟨5, 0, 0⟩ (some ⟨0, 0, 0⟩) none) ⟨1, 0, 0⟩)).camPos
           (mkFocus ⟨0, 1, 0⟩).camPos ∧
     ∃ m : ℕ, ((fun st => frame st 1)^[m]
       (select ((fun st => frame st 1)^[0]
          (select (RigState.mk ⟨5, 0, 0⟩ (some ⟨0, 0, 0⟩) none) ⟨1, 0, 0⟩)) ⟨0, 1, 0⟩)).focus =
         none) :=
  ⟨by norm_num, rfl, rfl,
    reselect_overwrite (RigState.mk ⟨5, 0, 0⟩ (some ⟨0, 0, 0⟩) none) ⟨1, 0, 0⟩ ⟨0, 1, 0⟩
      ⟨0, 0, 0⟩ 1 0 (by norm_num) rfl rfl⟩

/-- Three.js `CubicPoly`: `init(x0, x1, t0, t1)` sets coefficients
`c0 = x0`, `c1 = t0`, `c2 = -3 x0 + 3 x1 - 2 t0 - t1`,
`c3 = 2 x0 - 2 x1 + t0 + t1`, and `calc(w) = c0 + c1 w + c2 w² + c3 w³`. -/
noncomputable def cubicCalc (x0 x1 t0 t1 w : ℝ) : ℝ :=
  x0 + t0 * w + (-3 * x0 + 3 * x1 - 2 * t0 - t1) * w ^ 2 +
    (2 * x0 - 2 * x1 + t0 + t1) * w ^ 3

/-- Three.js `CubicPoly.initNonuniformCatmullRom(x0, x1, x2, x3, dt0, dt1, dt2)`
followed by `calc(w)`: tangents computed from the knot intervals, the segment
running from `x1` to `x2`. -/
noncomputable def nonuniformCR (x0 x1 x2 x3 dt0 dt1 dt2 w : ℝ) : ℝ :=
  cubicCalc x1 x2
    (((x1 - x0) / dt0 - (x2 - x0) / (dt0 + dt1) + (x2 - x1) / dt1) * dt1)
    (((x2 - x1) / dt1 - (x3 - x1) / (dt1 + dt2) + (x3 - x2) / dt2) * dt1)
    w

lemma nonuniformCR_zero (x0 x1 x2 x3 dt0 dt1 dt2 : ℝ) :
    nonuniformCR x0 x1 x2 x3 dt0 dt1 dt2 0 = x1 := by
  unfold nonuniformCR cubicCalc
  ring

lemma nonuniformCR_one (x0 x1 x2 x3 dt0 dt1 dt2 : ℝ) :
    nonuniformCR x0 x1 x2 x3 dt0 dt1 dt2 1 = x2 := by
  unfold nonuniformCR cubicCalc
  ring

/-- Three.js `CatmullRomCurve3.getPoint(t)` for a non-closed curve with the
default `centripetal` type (the curve built by `buildArcCurve`):
`p = (l - 1) t`, `intPoint = floor(p)`, `weight = p - intPoint`; when
`weight == 0` and `intPoint == l - 1` the last segment is evaluated at
weight 1; the end control points are reflections (`2 p - q`); the knot
intervals are `distanceToSquared ^ 0.25` clamped at `1e-4` (falling back to
`dt1` resp. `1.0`); the result applies the nonuniform Catmull-Rom polynomial
componentwise.  Out-of-range indices (impossible for `t ∈ [0, 1]`) default to
the zero vector. -/
noncomputable def catmullRomPoint (pts : List Vec3) (t : ℝ) : Vec3 :=
  let l : ℕ := pts.length
  let p : ℝ := ((l : ℝ) - 1) * t
  let ip0 : ℤ := ⌊p⌋
  let w0 : ℝ := p - (ip0 : ℝ)
  let ip : ℤ := if w0 = 0 ∧ ip0 = (l : ℤ) - 1 then (l : ℤ) - 2 else ip0
  let w : ℝ := if w0 = 0 ∧ ip0 = (l : ℤ) - 1 then 1 else w0
  let p1 : Vec3 := pts.getD (ip % (l : ℤ)).toNat vzero
  let p2 : Vec3 := pts.getD ((ip + 1) % (l : ℤ)).toNat vzero
  let p0 : Vec3 :=
    if 0 < ip then pts.getD ((ip - 1) % (l : ℤ)).toNat vzero
    else Vec3.add (Vec3.sub (pts.getD 0 vzero) (pts.getD 1 vzero)) (pts.getD 0 vzero)
  let p3 : Vec3 :=
    if ip + 2 < (l : ℤ) then pts.getD ((ip + 2) % (l : ℤ)).toNat vzero
    else Vec3.add (Vec3.sub (pts.getD (l - 1) vzero) (pts.getD (l - 2) vzero))
      (pts.getD (l - 1) vzero)
  let dt1a : ℝ := distSq p1 p2 ^ (0.25 : ℝ)
  let dt1 : ℝ := if dt1a < 1e-4 then 1 else dt1a
  let dt0a : ℝ := distSq p0 p1 ^ (0.25 : ℝ)
  let dt0 : ℝ := if dt0a < 1e-4 then dt1 else dt0a
  let dt2a : ℝ := distSq p2 p3 ^ (0.25 : ℝ)
  let dt2 : ℝ := if dt2a < 1e-4 then dt1 else dt2a
  ⟨nonuniformCR p0.x p1.x p2.x p3.x dt0 dt1 dt2 w,
   nonuniformCR p0.y p1.y p2.y p3.y dt0 dt1 dt2 w,
   nonuniformCR p0.z p1.z p2.z p3.z dt0 dt1 dt2 w⟩

lemma catmullRomPoint_three_zero (P0 P1 P2 : Vec3) :
    catmullRomPoint [P0, P1, P2] 0 = P0 := by
  unfold catmullRomPoint
  norm_num [Int.floor_zero]
  rw [nonuniformCR_zero, nonuniformCR_zero, nonuniformCR_zero]

lemma catmullRomPoint_three_one (P0 P1 P2 : Vec3) :
    catmullRomPoint [P0, P1, P2] 1 = P2 := by
  unfold catmullRomPoint
  norm_num
  rw [nonuniformCR_one, nonuniformCR_one, nonuniformCR_one]
  simp

/-- C7: for every arc built by `buildArcCurve` from distinct endpoints `a` and
`b`, evaluating the Catmull-Rom curve through `[a, elevatedControl, b]` at
fraction 0 yields exactly `a` and at fraction 1 exactly `b` (over the exact
reals the endpoint equality is exact, subsuming "within floating tolerance";
the arc-length reparametrization of `getPointAt` fixes the fractions 0 and 1,
so endpoint exactness is the property of the underlying curve evaluation). -/
theorem arc_endpoint_exactness (a b : Vec3) (lift : ℝ) (hab : a ≠ b) :
    catmullRomPoint (buildArcCurve a b lift) 0 = a ∧
    catmullRomPoint (buildArcCurve a b lift) 1 = b := by
  unfold buildArcCurve
  exact ⟨catmullRomPoint_three_zero _ _ _, catmullRomPoint_three_one _ _ _⟩

/-- C7 witness: endpoint exactness for the arc between the distinct points
`(1,0,0)` and `(0,1,0)` with the source's default lift `0.3`. -/
theorem arc_endpoint_exactness_witness :
    (Vec3.mk 1 0 0 ≠ Vec3.mk 0 1 0) ∧
    (catmullRomPoint (buildArcCurve ⟨1, 0, 0⟩ ⟨0, 1, 0⟩ 0.3) 0 = ⟨1, 0, 0⟩ ∧
     catmullRomPoint (buildArcCurve ⟨1, 0, 0⟩ ⟨0, 1, 0⟩ 0.3) 1 = ⟨0, 1, 0⟩) := by
  have hab : Vec3.mk 1 0 0 ≠ Vec3.mk 0 1 0 := by
    intro h
    exact one_ne_zero (congrArg Vec3.x h)
  exact ⟨hab, arc_endpoint_exactness ⟨1, 0, 0⟩ ⟨0, 1, 0⟩ 0.3 hab⟩

end EarthAfrica
